import Mathlib

/-!
Shallow embedding of `fkie-cve-make-release` (`src/fkie_cve_make_release/__main__.py`).

The tool is a single CLI procedure.  We embed:
  * Python's `int(str)` parsing (base 10: optional surrounding whitespace,
    optional sign, digits with single underscores allowed between digits),
    used by `_feed_name_is_valid`;
  * Python's `str(n)` for non-negative integers (plain decimal digits),
    used by `_write_all_feeds` via `str(year)`;
  * the `cli` entry point as a function from its inputs (parsed options and
    the observable state of the world: does the output path exist, how many
    entries it has, today's date) to either a usage error or the ordered
    trace of external effect calls it performs (mkdir, repo.fetch,
    repo.checkout, CveDatabase.from_timestamp, Feed.write).
-/

/-- Calendar date, as returned by `datetime.date`. -/
structure Date where
  year : Int
  month : Nat
  day : Nat
deriving DecidableEq, Repr

/-- A `datetime.datetime`; `date` is the projection `.date()`. -/
structure DateTime where
  date : Date
  hour : Nat
  minute : Nat
  second : Nat
deriving DecidableEq, Repr

/-- ASCII whitespace stripped by Python's `int()` before parsing. -/
def isPySpace (c : Char) : Bool :=
  c = ' ' || c = '\t' || c = '\n' || c = '\r' || c = '\x0b' || c = '\x0c'

/-- Numeric value of an ASCII digit character. -/
def digitVal (c : Char) : Nat :=
  c.toNat - 48

/-- Parses the tail of a Python integer literal body: each step is either a
digit or an underscore followed by a digit (`digit (["_"] digit)*` after the
first digit).  `acc` is the value of the digits consumed so far. -/
def pyDigitsAux : List Char → Nat → Option Nat
  | [], acc => some acc
  | c :: rest, acc =>
      if c = '_' then
        match rest with
        | c2 :: rest2 =>
            if c2.isDigit then pyDigitsAux rest2 (acc * 10 + digitVal c2) else none
        | [] => none
      else if c.isDigit then pyDigitsAux rest (acc * 10 + digitVal c) else none

/-- Parses a non-empty digit sequence (with underscore separators) to its value. -/
def pyParseDigits : List Char → Option Nat
  | [] => none
  | c :: rest => if c.isDigit then pyDigitsAux rest (digitVal c) else none

/-- Parses an optional sign followed by the digit body. -/
def pySigned : List Char → Option Int
  | [] => none
  | c :: rest =>
      if c = '+' then (pyParseDigits rest).map (fun n => (n : Int))
      else if c = '-' then (pyParseDigits rest).map (fun n => -(n : Int))
      else (pyParseDigits (c :: rest)).map (fun n => (n : Int))

/-- Python's `int(s)` in base 10: `some n` when the string parses, `none` when
`int()` raises `ValueError`. -/
def pyInt? (s : String) : Option Int :=
  pySigned (((s.toList.dropWhile isPySpace).reverse.dropWhile isPySpace).reverse)

/-- `_feed_name_is_valid` from `__main__.py`: a name is valid when it is one of
the literals, or `int(name)` succeeds with a value `>= 1999`. -/
def _feed_name_is_valid (name : String) : Bool :=
  if name ∈ (["all", "recent", "modified"] : List String) then
    true
  else
    match pyInt? name with
    | some year => decide (1999 ≤ year)
    | none => false

/-- Little-endian decimal digits of `n`; `fuel` bounds the recursion so the
definition is structural and evaluates inside the kernel. -/
def natDigitsRevFuel : Nat → Nat → List Nat
  | 0, _ => []
  | fuel + 1, n => if n < 10 then [n] else n % 10 :: natDigitsRevFuel fuel (n / 10)

/-- Little-endian decimal digits of `n` (`[0]` for `0`). -/
def natDigitsRev (n : Nat) : List Nat :=
  natDigitsRevFuel (n + 1) n

/-- Character of a decimal digit. -/
def digitChar (d : Nat) : Char :=
  Char.ofNat (48 + d)

/-- Python's `str(n)` for a non-negative integer: plain decimal digits. -/
def strOfNat (n : Nat) : String :=
  String.mk ((natDigitsRev n).reverse.map digitChar)

/-- Python's `str(i)` for an integer. -/
def strOfInt (i : Int) : String :=
  if i < 0 then String.mk ('-' :: (strOfNat i.natAbs).toList) else strOfNat i.toNat

/-- Python's `range(start, stop)` over integers, as the list it iterates. -/
def pyRange (start stop : Int) : List Int :=
  (List.range (stop - start).toNat).map (fun i => start + Int.ofNat i)

deriving instance DecidableEq for Except

/-- An external effect call performed by `cli`, in program order:
`path.mkdir`, `repo.fetch()`, `repo.checkout(timestamp)`,
`database.CveDatabase.from_timestamp(timestamp)` and
`Feed.write(dest_dir=path, db=db, name=name, xz_preset=xz_preset)`
(the destination directory and database of every write are the run's single
`path` and `db`, so only `name` and `xz_preset` vary). -/
inductive Effect where
  | mkdir
  | fetch
  | checkout (timestamp : Date)
  | loadDb (timestamp : Date)
  | writeFeed (name : String) (xzPreset : Int)
deriving DecidableEq, Repr

/-- The two `click.ClickException`s `cli` can raise before doing any work. -/
inductive CliError where
  | pathNotEmpty
  | invalidFeedName (name : String)
deriving DecidableEq, Repr

/-- The inputs of one `cli` invocation: the parsed options together with the
observable pre-state (whether `PATH` exists and how many entries it holds,
and `datetime.date.today()`). -/
structure CliInput where
  date : Option DateTime
  pathExists : Bool
  pathEntryCount : Nat
  fetch : Bool
  xzPreset : Int
  feedName : Option String
  today : Date
deriving DecidableEq, Repr

/-- `_write_all_feeds` from `__main__.py`: one `Feed.write` per year of
`range(1999, db.timestamp.year + 1)` with `name=str(year)`, then writes named
`"all"`, `"recent"` and `"modified"`, in that order. -/
def _write_all_feeds (dbTimestamp : Date) (xz_preset : Int) : List Effect :=
  (pyRange 1999 (dbTimestamp.year + 1)).map
      (fun year => Effect.writeFeed (strOfInt year) xz_preset)
    ++ [Effect.writeFeed "all" xz_preset,
        Effect.writeFeed "recent" xz_preset,
        Effect.writeFeed "modified" xz_preset]

/-- The `cli` entry point of `__main__.py` as a function from its inputs to a
usage error or the ordered trace of effect calls: `fetch |= date is None`;
abort if `path` exists non-empty; abort if `--feed-name` is given and invalid;
`path.mkdir`; `timestamp` is today when no `--date`, else `date.date()`;
`repo.fetch()` when fetching; `repo.checkout(timestamp)`; the database load;
then `_write_all_feeds` or the single named `Feed.write`. -/
def cli (inp : CliInput) : Except CliError (List Effect) :=
  let fetch := inp.fetch || inp.date.isNone
  if inp.pathExists && decide (0 < inp.pathEntryCount) then
    Except.error CliError.pathNotEmpty
  else if (inp.feedName.map (fun n => !_feed_name_is_valid n)).getD false then
    Except.error (CliError.invalidFeedName (inp.feedName.getD ""))
  else
    let timestamp :=
      match inp.date with
      | none => inp.today
      | some d => d.date
    Except.ok
      ([Effect.mkdir]
        ++ (if fetch then [Effect.fetch] else [])
        ++ [Effect.checkout timestamp, Effect.loadDb timestamp]
        ++ (match inp.feedName with
            | none => _write_all_feeds timestamp inp.xzPreset
            | some n => [Effect.writeFeed n inp.xzPreset]))

/-- The snapshot timestamp a run of `cli inp` uses once past validation. -/
def snapDate (inp : CliInput) : Date :=
  match inp.date with
  | none => inp.today
  | some d => d.date

/-- Pipeline stage of an effect: the stages of §2 of the spec in program
order (directory creation, sync, checkout, load, feed writing). -/
def Effect.phase : Effect → Nat
  | .mkdir => 0
  | .fetch => 1
  | .checkout _ => 2
  | .loadDb _ => 3
  | .writeFeed _ _ => 4

/-- The feed names of the `Feed.write` calls of a trace, in order. -/
def writeNames (tr : List Effect) : List String :=
  tr.filterMap fun a =>
    match a with
    | Effect.writeFeed n _ => some n
    | _ => none

/-- The feed-name vocabulary exactly as the specification words it (named
after the spec, for comparison with the source's `_feed_name_is_valid`): the
strings `"1999"` … `str(currentYear)`, `"all"`, `"recent"`, `"modified"`. -/
def specFeedNameValid (currentYear : Int) (name : String) : Bool :=
  name ∈ (["all", "recent", "modified"] : List String) ||
    (pyRange 1999 (currentYear + 1)).any (fun y => name = strOfInt y)

/-- Fixture: a run with `--date 2020-06-15 --fetch --feed-name all` on a fresh
output path, invoked on 2026-10-12. -/
def inpSingle : CliInput :=
  ⟨some ⟨⟨2020, 6, 15⟩, 0, 0, 0⟩, false, 0, true, 9, some "all", ⟨2026, 10, 12⟩⟩

/-- The effect trace of `inpSingle`. -/
def trSingle : List Effect :=
  [Effect.mkdir, Effect.fetch, Effect.checkout ⟨2020, 6, 15⟩,
    Effect.loadDb ⟨2020, 6, 15⟩, Effect.writeFeed "all" 9]

/-- Fixture: a run with `--date 2001-01-01` and no `--feed-name` on a fresh
output path. -/
def inpAll2001 : CliInput :=
  ⟨some ⟨⟨2001, 1, 1⟩, 0, 0, 0⟩, false, 0, false, 9, none, ⟨2026, 10, 12⟩⟩

/-- The effect trace of `inpAll2001`. -/
def trAll2001 : List Effect :=
  [Effect.mkdir, Effect.checkout ⟨2001, 1, 1⟩, Effect.loadDb ⟨2001, 1, 1⟩,
    Effect.writeFeed "1999" 9, Effect.writeFeed "2000" 9, Effect.writeFeed "2001" 9,
    Effect.writeFeed "all" 9, Effect.writeFeed "recent" 9, Effect.writeFeed "modified" 9]

/-- Fixture: a run with no `--date` and `--feed-name all` on a fresh output
path, invoked on 2026-10-12. -/
def inpNoDate : CliInput :=
  ⟨none, false, 0, false, 9, some "all", ⟨2026, 10, 12⟩⟩

/-- The effect trace of `inpNoDate`. -/
def trNoDate : List Effect :=
  [Effect.mkdir, Effect.fetch, Effect.checkout ⟨2026, 10, 12⟩,
    Effect.loadDb ⟨2026, 10, 12⟩, Effect.writeFeed "all" 9]

/-- Fixture: a run whose output path exists and holds three entries. -/
def inpNonEmpty : CliInput :=
  ⟨some ⟨⟨2020, 6, 15⟩, 0, 0, 0⟩, true, 3, false, 9, none, ⟨2026, 10, 12⟩⟩

/-- Fixture: a run with the invalid `--feed-name hello` on a fresh output path. -/
def inpBadName : CliInput :=
  ⟨some ⟨⟨2020, 6, 15⟩, 0, 0, 0⟩, false, 0, false, 9, some "hello", ⟨2026, 10, 12⟩⟩

/-- Fixture: a run with `--date 1995-05-05` and no `--feed-name` on a fresh
output path. -/
def inpOld1995 : CliInput :=
  ⟨some ⟨⟨1995, 5, 5⟩, 0, 0, 0⟩, false, 0, false, 9, none, ⟨2026, 10, 12⟩⟩

/-- The effect trace of `inpOld1995`: no per-year feeds. -/
def trOld1995 : List Effect :=
  [Effect.mkdir, Effect.checkout ⟨1995, 5, 5⟩, Effect.loadDb ⟨1995, 5, 5⟩,
    Effect.writeFeed "all" 9, Effect.writeFeed "recent" 9, Effect.writeFeed "modified" 9]

/-- Value of a little-endian decimal digit list. -/
def valLE : List Nat → Nat
  | [] => 0
  | d :: ds => d + 10 * valLE ds

-- Spot checks of the embedding on concrete inputs.
example : pyInt? "2000" = some 2000 := by decide
example : pyInt? "02000" = some 2000 := by decide
example : pyInt? " +2_000 " = some 2000 := by decide
example : pyInt? "-17" = some (-17) := by decide
example : pyInt? "all" = none := by decide
example : pyInt? "2_" = none := by decide
example : pyInt? "_2" = none := by decide
example : pyInt? "2__0" = none := by decide
example : pyInt? "" = none := by decide
example : pyInt? "+" = none := by decide
example : _feed_name_is_valid "recent" = true := by decide
example : _feed_name_is_valid "1998" = false := by decide
example : _feed_name_is_valid "10000" = true := by decide
example : strOfNat 2026 = "2026" := by decide
example : strOfInt 0 = "0" := by decide
example : pyRange 1999 2002 = [1999, 2000, 2001] := by decide
example : pyRange 1999 1998 = [] := by decide

example :
    cli ⟨some ⟨⟨2020, 6, 15⟩, 0, 0, 0⟩, false, 0, false, 9, some "all", ⟨2026, 10, 12⟩⟩ =
      Except.ok [Effect.mkdir, Effect.checkout ⟨2020, 6, 15⟩,
        Effect.loadDb ⟨2020, 6, 15⟩, Effect.writeFeed "all" 9] := by decide

example :
    cli ⟨none, true, 2, false, 9, none, ⟨2026, 10, 12⟩⟩ =
      Except.error CliError.pathNotEmpty := by decide

example :
    cli ⟨none, false, 0, false, 9, some "x", ⟨2026, 10, 12⟩⟩ =
      Except.error (CliError.invalidFeedName "x") := by decide

example :
    writeNames ((cli ⟨none, false, 0, false, 9, none, ⟨2001, 1, 1⟩⟩).toOption.getD []) =
      ["1999", "2000", "2001", "all", "recent", "modified"] := by decide

theorem valLE_natDigitsRevFuel (fuel n : Nat) (h : n < fuel) :
    valLE (natDigitsRevFuel fuel n) = n := by
  induction fuel generalizing n with
  | zero => omega
  | succ fuel ih =>
    rw [natDigitsRevFuel]
    by_cases h10 : n < 10
    · simp [h10, valLE]
    · rw [if_neg h10, valLE, ih (n / 10) (by omega)]
      omega

theorem natDigitsRevFuel_lt_ten (fuel n : Nat) :
    ∀ d ∈ natDigitsRevFuel fuel n, d < 10 := by
  induction fuel generalizing n with
  | zero => simp [natDigitsRevFuel]
  | succ fuel ih =>
    intro d hd
    rw [natDigitsRevFuel] at hd
    by_cases h10 : n < 10
    · simp [h10] at hd
      omega
    · rw [if_neg h10] at hd
      rcases List.mem_cons.mp hd with h | h
      · omega
      · exact ih (n / 10) d h

theorem natDigitsRevFuel_ne_nil (fuel n : Nat) (h : 0 < fuel) :
    natDigitsRevFuel fuel n ≠ [] := by
  cases fuel with
  | zero => omega
  | succ fuel =>
    rw [natDigitsRevFuel]
    by_cases h10 : n < 10 <;> simp [h10]

theorem digitChar_props (d : Nat) (hd : d < 10) :
    (digitChar d).isDigit = true ∧ digitChar d ≠ '_' ∧ digitChar d ≠ '+' ∧
      digitChar d ≠ '-' ∧ isPySpace (digitChar d) = false ∧ digitVal (digitChar d) = d := by
  interval_cases d <;> refine ⟨?_, ?_, ?_, ?_, ?_, ?_⟩ <;> decide

theorem pyDigitsAux_all_digits (l : List Char) (acc : Nat)
    (h : ∀ c ∈ l, c.isDigit = true ∧ c ≠ '_') :
    pyDigitsAux l acc = some (l.foldl (fun a c => a * 10 + digitVal c) acc) := by
  induction l generalizing acc with
  | nil => simp [pyDigitsAux]
  | cons c rest ih =>
    obtain ⟨hc, hcu⟩ := h c (by simp)
    rw [pyDigitsAux.eq_def]
    simp only [if_neg hcu, if_pos hc, List.foldl_cons]
    exact ih _ fun x hx => h x (List.mem_cons_of_mem _ hx)

theorem pyParseDigits_all_digits (l : List Char) (hne : l ≠ [])
    (h : ∀ c ∈ l, c.isDigit = true ∧ c ≠ '_') :
    pyParseDigits l = some (l.foldl (fun a c => a * 10 + digitVal c) 0) := by
  cases l with
  | nil => simp at hne
  | cons c rest =>
    obtain ⟨hc, _⟩ := h c (by simp)
    simp only [pyParseDigits, if_pos hc,
      pyDigitsAux_all_digits rest _ fun x hx => h x (List.mem_cons_of_mem _ hx),
      List.foldl_cons]
    norm_num

theorem foldl_reverse_valLE (l : List Nat) (acc : Nat) :
    l.reverse.foldl (fun a d => a * 10 + d) acc = acc * 10 ^ l.length + valLE l := by
  induction l generalizing acc with
  | nil => simp [valLE]
  | cons d ds ih =>
    simp only [List.reverse_cons, List.foldl_append, List.foldl_cons, List.foldl_nil,
      ih, valLE, List.length_cons]
    ring

theorem dropWhile_eq_self_of_all_false {α : Type} (p : α → Bool) (l : List α)
    (h : ∀ c ∈ l, p c = false) : l.dropWhile p = l := by
  cases l with
  | nil => rfl
  | cons c rest => simp [List.dropWhile_cons, h c (by simp)]

theorem pyParseDigits_strOfNat (n : Nat) :
    pyParseDigits ((natDigitsRev n).reverse.map digitChar) = some n := by
  have hne : (natDigitsRev n).reverse.map digitChar ≠ [] := by
    simp [natDigitsRev, natDigitsRevFuel_ne_nil (n + 1) n (by omega)]
  have hall : ∀ c ∈ (natDigitsRev n).reverse.map digitChar, c.isDigit = true ∧ c ≠ '_' := by
    intro c hc
    obtain ⟨d, hd, rfl⟩ := List.mem_map.mp hc
    have hd10 : d < 10 :=
      natDigitsRevFuel_lt_ten (n + 1) n d (List.mem_reverse.mp hd)
    exact ⟨(digitChar_props d hd10).1, (digitChar_props d hd10).2.1⟩
  rw [pyParseDigits_all_digits _ hne hall, List.foldl_map]
  have hfold :
      (natDigitsRev n).reverse.foldl (fun a d => a * 10 + digitVal (digitChar d)) 0 =
        (natDigitsRev n).reverse.foldl (fun a d => a * 10 + d) 0 := by
    refine List.foldl_ext _ _ _ fun a d hd => ?_
    have hd10 : d < 10 :=
      natDigitsRevFuel_lt_ten (n + 1) n d (List.mem_reverse.mp hd)
    rw [(digitChar_props d hd10).2.2.2.2.2]
  rw [hfold, foldl_reverse_valLE]
  simp only [natDigitsRev]
  rw [valLE_natDigitsRevFuel (n + 1) n (by omega)]
  simp

theorem pyInt?_strOfNat (n : Nat) : pyInt? (strOfNat n) = some (n : Int) := by
  have htl : (strOfNat n).toList = (natDigitsRev n).reverse.map digitChar := rfl
  have hall : ∀ c ∈ (natDigitsRev n).reverse.map digitChar, isPySpace c = false := by
    intro c hc
    obtain ⟨d, hd, rfl⟩ := List.mem_map.mp hc
    have hd10 : d < 10 :=
      natDigitsRevFuel_lt_ten (n + 1) n d (List.mem_reverse.mp hd)
    exact (digitChar_props d hd10).2.2.2.2.1
  rw [pyInt?, htl, dropWhile_eq_self_of_all_false _ _ hall,
    dropWhile_eq_self_of_all_false _ _ (by intro c hc; exact hall c (List.mem_reverse.mp hc)),
    List.reverse_reverse]
  cases hl : (natDigitsRev n).reverse.map digitChar with
  | nil =>
    exact absurd (by simpa using congrArg List.length hl)
      (by simp [natDigitsRev, natDigitsRevFuel_ne_nil (n + 1) n (by omega)])
  | cons c rest =>
    have hc : c ∈ (natDigitsRev n).reverse.map digitChar := by rw [hl]; simp
    obtain ⟨d, hd, hcd⟩ := List.mem_map.mp hc
    have hd10 : d < 10 :=
      natDigitsRevFuel_lt_ten (n + 1) n d (List.mem_reverse.mp hd)
    simp only [pySigned, if_neg (hcd ▸ (digitChar_props d hd10).2.2.1),
      if_neg (hcd ▸ (digitChar_props d hd10).2.2.2.1)]
    rw [← hl, pyParseDigits_strOfNat n]
    rfl

theorem pyInt?_strOfInt_nonneg (i : Int) (h : 0 ≤ i) : pyInt? (strOfInt i) = some i := by
  rw [strOfInt, if_neg (by omega), pyInt?_strOfNat, Int.toNat_of_nonneg h]

theorem strOfInt_inj_nonneg (a b : Int) (ha : 0 ≤ a) (hb : 0 ≤ b)
    (h : strOfInt a = strOfInt b) : a = b := by
  have := (pyInt?_strOfInt_nonneg a ha).symm.trans
    ((congrArg pyInt? h).trans (pyInt?_strOfInt_nonneg b hb))
  exact Option.some.inj this

theorem valid_of_pyInt_ge (s : String) (n : Int) (hp : pyInt? s = some n)
    (hn : 1999 ≤ n) : _feed_name_is_valid s = true := by
  unfold _feed_name_is_valid
  split
  · rfl
  · rw [hp]
    simp [hn]

theorem strOfInt_year_valid (y : Int) (hy : 1999 ≤ y) :
    _feed_name_is_valid (strOfInt y) = true :=
  valid_of_pyInt_ge _ y (pyInt?_strOfInt_nonneg y (by omega)) hy

theorem cli_ok_shape (inp : CliInput) (tr : List Effect) (h : cli inp = Except.ok tr) :
    (∀ n, inp.feedName = some n → _feed_name_is_valid n = true) ∧
    tr = [Effect.mkdir]
        ++ (if inp.fetch || inp.date.isNone then [Effect.fetch] else [])
        ++ [Effect.checkout (snapDate inp), Effect.loadDb (snapDate inp)]
        ++ (match inp.feedName with
            | none => _write_all_feeds (snapDate inp) inp.xzPreset
            | some n => [Effect.writeFeed n inp.xzPreset]) := by
  simp only [cli] at h
  split at h
  · exact absurd h (by simp)
  · split at h
    · exact absurd h (by simp)
    · next hval =>
      refine ⟨?_, ?_⟩
      · intro n hn
        rw [hn] at hval
        simp at hval
        exact hval
      · have h' := Except.ok.inj h
        rw [← h']
        rfl

theorem pyRange_nodup (a b : Int) : (pyRange a b).Nodup := by
  have hinj : Function.Injective (fun i : Nat => a + Int.ofNat i) := by
    intro i j hij
    simp only [Int.ofNat_eq_coe, add_right_inj, Nat.cast_inj] at hij
    exact hij
  exact List.Nodup.map hinj (List.nodup_range _)

theorem pyRange_mem (a b x : Int) (h : x ∈ pyRange a b) : a ≤ x ∧ x < b := by
  unfold pyRange at h
  obtain ⟨i, hi, rfl⟩ := List.mem_map.mp h
  simp only [List.mem_range] at hi
  simp only [Int.ofNat_eq_coe]
  omega

theorem writeNames_append (l₁ l₂ : List Effect) :
    writeNames (l₁ ++ l₂) = writeNames l₁ ++ writeNames l₂ := by
  unfold writeNames
  exact List.filterMap_append l₁ l₂ _

theorem writeNames_map_year (ys : List Int) (p : Int) :
    writeNames (ys.map fun y => Effect.writeFeed (strOfInt y) p) = ys.map strOfInt := by
  induction ys with
  | nil => rfl
  | cons y ys ih =>
    simp only [List.map_cons, writeNames, List.filterMap_cons] at ih ⊢
    rw [ih]

theorem writeNames_write_all_feeds (d : Date) (p : Int) :
    writeNames (_write_all_feeds d p) =
      (pyRange 1999 (d.year + 1)).map strOfInt ++ ["all", "recent", "modified"] := by
  unfold _write_all_feeds
  rw [writeNames_append, writeNames_map_year]
  rfl

theorem mem_write_all_feeds (d : Date) (p : Int) (a : Effect)
    (h : a ∈ _write_all_feeds d p) : ∃ nm, a = Effect.writeFeed nm p := by
  unfold _write_all_feeds at h
  rcases List.mem_append.mp h with h | h
  · obtain ⟨y, _, rfl⟩ := List.mem_map.mp h
    exact ⟨_, rfl⟩
  · simp at h
    rcases h with rfl | rfl | rfl <;> exact ⟨_, rfl⟩

theorem phase_le_four (a : Effect) : a.phase ≤ 4 := by
  cases a <;> simp [Effect.phase]

theorem pairwise_phase_of_const (k : Nat) (l : List Effect)
    (h : ∀ a ∈ l, Effect.phase a = k) :
    l.Pairwise (fun a b => Effect.phase a ≤ Effect.phase b) := by
  induction l with
  | nil => exact List.Pairwise.nil
  | cons a as ih =>
    refine List.Pairwise.cons (fun b hb => ?_) (ih fun b hb => h b (List.mem_cons_of_mem _ hb))
    rw [h a (by simp), h b (List.mem_cons_of_mem _ hb)]

theorem cli_phases_sorted (inp : CliInput) (tr : List Effect) (h : cli inp = Except.ok tr) :
    tr.Pairwise (fun a b => Effect.phase a ≤ Effect.phase b) := by
  obtain ⟨-, htr⟩ := cli_ok_shape inp tr h
  subst htr
  have hW : ∀ a ∈ (match inp.feedName with
      | none => _write_all_feeds (snapDate inp) inp.xzPreset
      | some n => [Effect.writeFeed n inp.xzPreset]), Effect.phase a = 4 := by
    cases inp.feedName with
    | none =>
      intro a ha
      obtain ⟨nm, rfl⟩ := mem_write_all_feeds _ _ a ha
      rfl
    | some n =>
      intro a ha
      simp at ha
      rw [ha]
      rfl
  refine List.pairwise_append.mpr ⟨?_, ?_, ?_⟩
  · refine List.pairwise_append.mpr ⟨?_, ?_, ?_⟩
    · refine List.pairwise_append.mpr ⟨?_, ?_, ?_⟩
      · simp
      · split <;> simp
      · intro a ha b hb
        simp at ha
        subst ha
        simp [Effect.phase]
    · simp [Effect.phase]
    · intro a ha b hb
      rcases List.mem_append.mp ha with ha | ha
      · simp at ha
        subst ha
        simp at hb
        rcases hb with rfl | rfl <;> simp [Effect.phase]
      · split at ha <;> simp at ha
        subst ha
        simp at hb
        rcases hb with rfl | rfl <;> simp [Effect.phase]
  · exact pairwise_phase_of_const 4 _ hW
  · intro a ha b hb
    rw [hW b hb]
    exact phase_le_four a

/-- C1 counterexample: the code's validator accepts the string `"02000"`,
which is not one of the spec's vocabulary `"1999"` … `"2026"` (the current
year), `"all"`, `"recent"`, `"modified"`, so validation does not accept
exactly the claimed set. -/
theorem c1_counterexample :
    _feed_name_is_valid "02000" = true ∧ specFeedNameValid 2026 "02000" = false :=
  ⟨by decide, by decide⟩

/-- C1 (amended): feed-name validation accepts exactly the literals `"all"`,
`"recent"`, `"modified"` and every string that Python's `int()` parses to an
integer `≥ 1999` — with no upper bound, no four-digit requirement, and with
leading zeros, a leading sign, surrounding whitespace and underscore digit
separators allowed; every other string is rejected. -/
theorem c1_feed_name_validation_exact (s : String) :
    _feed_name_is_valid s = true ↔
      s = "all" ∨ s = "recent" ∨ s = "modified" ∨
        ∃ n : Int, pyInt? s = some n ∧ 1999 ≤ n := by
  unfold _feed_name_is_valid
  by_cases hm : s ∈ (["all", "recent", "modified"] : List String)
  · rw [if_pos hm]
    simp only [List.mem_cons, List.not_mem_nil, or_false] at hm
    simp only [true_iff]
    tauto
  · rw [if_neg hm]
    simp only [List.mem_cons, List.not_mem_nil, or_false] at hm
    push_neg at hm
    obtain ⟨h1, h2, h3⟩ := hm
    cases hp : pyInt? s with
    | none => simp [h1, h2, h3]
    | some y => simp [h1, h2, h3]

/-- C1 (amended) witness: the instance of the characterization at `"02000"`. -/
theorem c1_feed_name_validation_exact_witness :
    _feed_name_is_valid "02000" = true :=
  (c1_feed_name_validation_exact "02000").mpr
    (Or.inr (Or.inr (Or.inr ⟨2000, by decide, by decide⟩)))

/-- C2: with no `--feed-name`, the run writes exactly one feed per name, in
the fixed order: the years 1999 through the snapshot year (as decimal
strings), then `"all"`, `"recent"`, `"modified"`; that is
`(snapshotYear - 1999 + 1) + 3` `Feed.write` calls with pairwise-distinct
names. -/
theorem c2_all_feeds_write_plan (inp : CliInput) (tr : List Effect)
    (hfn : inp.feedName = none) (hy : 1999 ≤ (snapDate inp).year)
    (h : cli inp = Except.ok tr) :
    writeNames tr =
        (pyRange 1999 ((snapDate inp).year + 1)).map strOfInt ++
          ["all", "recent", "modified"] ∧
      ((writeNames tr).length : Int) = ((snapDate inp).year - 1999 + 1) + 3 ∧
      (writeNames tr).Nodup := by
  obtain ⟨-, htr⟩ := cli_ok_shape inp tr h
  subst htr
  rw [hfn]
  have hnames :
      writeNames ([Effect.mkdir]
          ++ (if inp.fetch || inp.date.isNone then [Effect.fetch] else [])
          ++ [Effect.checkout (snapDate inp), Effect.loadDb (snapDate inp)]
          ++ _write_all_feeds (snapDate inp) inp.xzPreset) =
        (pyRange 1999 ((snapDate inp).year + 1)).map strOfInt ++
          ["all", "recent", "modified"] := by
    rw [writeNames_append, writeNames_append, writeNames_append,
      writeNames_write_all_feeds]
    have h1 : writeNames [Effect.mkdir] = [] := rfl
    have h2 : writeNames (if inp.fetch || inp.date.isNone
        then [Effect.fetch] else []) = [] := by
      split <;> rfl
    have h3 : writeNames [Effect.checkout (snapDate inp),
        Effect.loadDb (snapDate inp)] = [] := rfl
    rw [h1, h2, h3]
    rfl
  refine ⟨hnames, ?_, ?_⟩
  · rw [hnames]
    have hlen : ((pyRange 1999 ((snapDate inp).year + 1)).map strOfInt).length =
        (((snapDate inp).year + 1 - 1999).toNat) := by
      rw [List.length_map]
      unfold pyRange
      rw [List.length_map, List.length_range]
    rw [List.length_append, hlen]
    have h3 : (["all", "recent", "modified"] : List String).length = 3 := rfl
    rw [h3]
    omega
  · rw [hnames]
    refine List.Nodup.append ?_ (by decide) ?_
    · refine List.Nodup.map_on ?_ (pyRange_nodup _ _)
      intro x hx y hy' hxy
      have hx' := pyRange_mem _ _ _ hx
      have hy'' := pyRange_mem _ _ _ hy'
      exact strOfInt_inj_nonneg x y (by omega) (by omega) hxy
    · intro s hs hs'
      obtain ⟨y, hyr, rfl⟩ := List.mem_map.mp hs
      have hy' := pyRange_mem _ _ _ hyr
      have hsome : pyInt? (strOfInt y) = some y :=
        pyInt?_strOfInt_nonneg y (by omega)
      have : pyInt? (strOfInt y) = none := by
        simp only [List.mem_cons, List.not_mem_nil, or_false] at hs'
        rcases hs' with h | h | h <;> rw [h] <;> decide
      rw [hsome] at this
      exact Option.noConfusion this

/-- C2 witness: the plan at `inpAll2001` (snapshot year 2001). -/
theorem c2_all_feeds_write_plan_witness :
    writeNames trAll2001 =
        (pyRange 1999 ((snapDate inpAll2001).year + 1)).map strOfInt ++
          ["all", "recent", "modified"] ∧
      ((writeNames trAll2001).length : Int) =
        ((snapDate inpAll2001).year - 1999 + 1) + 3 ∧
      (writeNames trAll2001).Nodup :=
  c2_all_feeds_write_plan inpAll2001 trAll2001 rfl (by decide) (by decide)

/-- C3: when the output path exists and holds at least one entry, `cli`
aborts with the path usage error, performing no effect at all (no mkdir, no
fetch, no checkout, no load, no write). -/
theorem c3_nonempty_path_aborts (inp : CliInput)
    (hex : inp.pathExists = true) (hcnt : 0 < inp.pathEntryCount) :
    cli inp = Except.error CliError.pathNotEmpty := by
  simp only [cli, hex]
  rw [if_pos (by simp [hcnt])]

/-- C3 witness: the abort at `inpNonEmpty`. -/
theorem c3_nonempty_path_aborts_witness :
    cli inpNonEmpty = Except.error CliError.pathNotEmpty :=
  c3_nonempty_path_aborts inpNonEmpty rfl (by decide)

/-- C4: when `--feed-name` is supplied and fails validation, `cli` raises a
usage error (the feed-name error, or the path error if that check fired
first) and performs no effect: no mkdir, no fetch, no checkout, no load, no
write. -/
theorem c4_invalid_feed_name_aborts (inp : CliInput) (n : String)
    (hfn : inp.feedName = some n) (hv : _feed_name_is_valid n = false) :
    cli inp = Except.error CliError.pathNotEmpty ∨
      cli inp = Except.error (CliError.invalidFeedName n) := by
  by_cases hp : (inp.pathExists && decide (0 < inp.pathEntryCount)) = true
  · left
    simp only [cli]
    rw [if_pos hp]
  · right
    simp only [cli]
    rw [if_neg hp, hfn]
    simp [hv]

/-- C4 witness: the abort at `inpBadName`. -/
theorem c4_invalid_feed_name_aborts_witness :
    cli inpBadName = Except.error CliError.pathNotEmpty ∨
      cli inpBadName = Except.error (CliError.invalidFeedName "hello") :=
  c4_invalid_feed_name_aborts inpBadName "hello" rfl (by decide)

/-- C5: a run without `--date` fetches (even when `--fetch` was not passed)
and both the checkout and the database load use today's date. -/
theorem c5_no_date_fetches_today (inp : CliInput) (tr : List Effect)
    (hd : inp.date = none) (h : cli inp = Except.ok tr) :
    Effect.fetch ∈ tr ∧ Effect.checkout inp.today ∈ tr ∧
      Effect.loadDb inp.today ∈ tr := by
  obtain ⟨-, htr⟩ := cli_ok_shape inp tr h
  subst htr
  have hsnap : snapDate inp = inp.today := by
    simp [snapDate, hd]
  refine ⟨?_, ?_, ?_⟩
  · simp [hd]
  · rw [hsnap]
    simp
  · rw [hsnap]
    simp

/-- C5 witness: the conclusion at `inpNoDate` (`--fetch` not passed). -/
theorem c5_no_date_fetches_today_witness :
    Effect.fetch ∈ trNoDate ∧ Effect.checkout inpNoDate.today ∈ trNoDate ∧
      Effect.loadDb inpNoDate.today ∈ trNoDate :=
  c5_no_date_fetches_today inpNoDate trNoDate rfl (by decide)

/-- C6: a run with an explicit `--date` and without `--fetch` performs no
fetch call, and the checkout uses the date component of the given datetime. -/
theorem c6_explicit_date_no_fetch (inp : CliInput) (dtm : DateTime)
    (tr : List Effect) (hd : inp.date = some dtm) (hf : inp.fetch = false)
    (h : cli inp = Except.ok tr) :
    Effect.fetch ∉ tr ∧ Effect.checkout dtm.date ∈ tr := by
  obtain ⟨-, htr⟩ := cli_ok_shape inp tr h
  subst htr
  have hsnap : snapDate inp = dtm.date := by
    simp [snapDate, hd]
  constructor
  · intro hmem
    rcases List.mem_append.mp hmem with hmem | hmem
    · rcases List.mem_append.mp hmem with hmem | hmem
      · rcases List.mem_append.mp hmem with hmem | hmem
        · simp at hmem
        · rw [hd, hf] at hmem
          simp at hmem
      · simp at hmem
    · match hw : inp.feedName with
      | none =>
        rw [hw] at hmem
        obtain ⟨nm, hnm⟩ := mem_write_all_feeds _ _ _ hmem
        exact Effect.noConfusion hnm
      | some n =>
        rw [hw] at hmem
        simp at hmem
  · rw [hsnap]
    simp

/-- C6 witness: the conclusion at `inpAll2001` (`--date 2001-01-01`, no
`--fetch`). -/
theorem c6_explicit_date_no_fetch_witness :
    Effect.fetch ∉ trAll2001 ∧
      Effect.checkout (⟨⟨2001, 1, 1⟩, 0, 0, 0⟩ : DateTime).date ∈ trAll2001 :=
  c6_explicit_date_no_fetch inpAll2001 ⟨⟨2001, 1, 1⟩, 0, 0, 0⟩ trAll2001 rfl rfl
    (by decide)

/-- C7: in every successful run the stages are strictly ordered: every fetch
precedes every checkout, every checkout precedes every database load, and
every database load precedes every feed write. -/
theorem c7_stage_order (inp : CliInput) (tr : List Effect)
    (h : cli inp = Except.ok tr) (i j : Fin tr.length)
    (hij : (tr.get i = Effect.fetch ∧ ∃ d, tr.get j = Effect.checkout d) ∨
      ((∃ d, tr.get i = Effect.checkout d) ∧ ∃ d, tr.get j = Effect.loadDb d) ∨
      ((∃ d, tr.get i = Effect.loadDb d) ∧
        ∃ nm p, tr.get j = Effect.writeFeed nm p)) :
    i < j := by
  have hpw := cli_phases_sorted inp tr h
  have hlt : (tr.get i).phase < (tr.get j).phase := by
    rcases hij with ⟨h1, d, h2⟩ | ⟨⟨d1, h1⟩, d2, h2⟩ | ⟨⟨d1, h1⟩, nm, p, h2⟩ <;>
      rw [h1, h2] <;> simp [Effect.phase]
  by_contra hc
  push_neg at hc
  rcases lt_or_eq_of_le hc with hji | hji
  · have := List.pairwise_iff_get.mp hpw j i hji
    omega
  · rw [hji] at hlt
    omega

/-- C7 witness: in the trace of `inpSingle`, the fetch (index 1) precedes the
checkout (index 2). -/
theorem c7_stage_order_witness :
    cli inpSingle = Except.ok trSingle ∧
      (⟨1, by decide⟩ : Fin trSingle.length) < (⟨2, by decide⟩ : Fin trSingle.length) :=
  ⟨by decide,
    c7_stage_order inpSingle trSingle (by decide) ⟨1, by decide⟩ ⟨2, by decide⟩
      (Or.inl ⟨rfl, ⟨⟨2020, 6, 15⟩, rfl⟩⟩)⟩

/-- C8: feed-name validation accepts every string that `int()` parses to a
value `≥ 1999` — with no upper bound and no four-digit requirement (so
`"10000"`, `"02000"` and years beyond the snapshot year are all accepted). -/
theorem c8_accepts_any_int_ge_1999 (s : String) (n : Int)
    (hp : pyInt? s = some n) (hn : 1999 ≤ n) :
    _feed_name_is_valid s = true :=
  valid_of_pyInt_ge s n hp hn

/-- C8 witness: `"10000"` parses to `10000 ≥ 1999` and is accepted; the
claim's other examples `"02000"` and `"9999"` (a year beyond a 2026 snapshot)
are accepted too. -/
theorem c8_accepts_any_int_ge_1999_witness :
    pyInt? "10000" = some 10000 ∧ _feed_name_is_valid "10000" = true ∧
      _feed_name_is_valid "02000" = true ∧ _feed_name_is_valid "9999" = true :=
  ⟨by decide, c8_accepts_any_int_ge_1999 "10000" 10000 (by decide) (by decide),
    by decide, by decide⟩

/-- C9: every feed name ever passed to `Feed.write` — on the single-feed path
and on the all-feeds path alike — satisfies `_feed_name_is_valid`. -/
theorem c9_written_names_valid (inp : CliInput) (tr : List Effect)
    (h : cli inp = Except.ok tr) :
    ∀ nm p, Effect.writeFeed nm p ∈ tr → _feed_name_is_valid nm = true := by
  obtain ⟨hval, htr⟩ := cli_ok_shape inp tr h
  subst htr
  intro nm p hmem
  rcases List.mem_append.mp hmem with hmem | hmem
  · rcases List.mem_append.mp hmem with hmem | hmem
    · rcases List.mem_append.mp hmem with hmem | hmem
      · simp at hmem
      · split at hmem <;> simp at hmem
    · simp at hmem
  · match hw : inp.feedName with
    | none =>
      rw [hw] at hmem
      unfold _write_all_feeds at hmem
      rcases List.mem_append.mp hmem with hmem | hmem
      · obtain ⟨y, hyr, hy⟩ := List.mem_map.mp hmem
        have hge := (pyRange_mem _ _ _ hyr).1
        have : nm = strOfInt y := (Effect.writeFeed.injEq _ _ _ _).mp hy.symm |>.1
        rw [this]
        exact strOfInt_year_valid y hge
      · simp only [List.mem_cons, List.not_mem_nil, or_false] at hmem
        rcases hmem with h' | h' | h' <;>
          · have := (Effect.writeFeed.injEq _ _ _ _).mp h' |>.1
            rw [this]
            decide
    | some n =>
      rw [hw] at hmem
      simp only [List.mem_cons, List.not_mem_nil, or_false] at hmem
      have := (Effect.writeFeed.injEq _ _ _ _).mp hmem |>.1
      rw [this]
      exact hval n hw

/-- C9 witness: the name `"1999"` written by the run of `inpAll2001` is
valid. -/
theorem c9_written_names_valid_witness : _feed_name_is_valid "1999" = true :=
  c9_written_names_valid inpAll2001 trAll2001 (by decide) "1999" 9 (by decide)

/-- C10: with no `--feed-name` and a snapshot year before 1999, the per-year
loop writes nothing and exactly the three aggregate feeds `"all"`,
`"recent"`, `"modified"` are written. -/
theorem c10_pre1999_only_aggregates (inp : CliInput) (tr : List Effect)
    (hfn : inp.feedName = none) (hy : (snapDate inp).year < 1999)
    (h : cli inp = Except.ok tr) :
    writeNames tr = ["all", "recent", "modified"] ∧
      (writeNames tr).length = 3 := by
  obtain ⟨-, htr⟩ := cli_ok_shape inp tr h
  subst htr
  rw [hfn]
  have hrange : pyRange 1999 ((snapDate inp).year + 1) = [] := by
    unfold pyRange
    have h0 : ((snapDate inp).year + 1 - 1999).toNat = 0 := by omega
    rw [h0]
    rfl
  have hnames :
      writeNames ([Effect.mkdir]
          ++ (if inp.fetch || inp.date.isNone then [Effect.fetch] else [])
          ++ [Effect.checkout (snapDate inp), Effect.loadDb (snapDate inp)]
          ++ _write_all_feeds (snapDate inp) inp.xzPreset) =
        ["all", "recent", "modified"] := by
    rw [writeNames_append, writeNames_append, writeNames_append,
      writeNames_write_all_feeds, hrange]
    have h1 : writeNames [Effect.mkdir] = [] := rfl
    have h2 : writeNames (if inp.fetch || inp.date.isNone
        then [Effect.fetch] else []) = [] := by
      split <;> rfl
    have h3 : writeNames [Effect.checkout (snapDate inp),
        Effect.loadDb (snapDate inp)] = [] := rfl
    rw [h1, h2, h3]
    rfl
  exact ⟨hnames, by rw [hnames]; rfl⟩

/-- C10 witness: the run of `inpOld1995` (snapshot year 1995) writes exactly
the three aggregate feeds. -/
theorem c10_pre1999_only_aggregates_witness :
    writeNames trOld1995 = ["all", "recent", "modified"] ∧
      (writeNames trOld1995).length = 3 :=
  c10_pre1999_only_aggregates inpOld1995 trOld1995 rfl (by decide) (by decide)
